import Mathlib

/-!
Verification of the ebook-indexing bot (database.py, utils.py, handlers.py).

The SQLite tables are modelled as Lean lists kept in rowid (insertion) order;
AUTOINCREMENT ids and CURRENT_TIMESTAMP values are passed explicitly to the
operations that insert rows.  Python/SQLite strings are modelled over Lean
Char with ASCII character classes (the regexes in utils.py additionally match
non-ASCII word characters, which no claim here depends on).
-/

/-- Model of the character class of the regex fragment backslash-w in
utils.py line 10 (ASCII model: letters, digits, underscore). -/
def isWordChar (c : Char) : Bool := c.isAlpha || c.isDigit || c == '_'

/-- Case-insensitive comparison of a character against a letter given in its
lowercase and uppercase forms; models the IGNORECASE flag of the
extension-stripping regex in utils.py line 8. -/
def eqCI (c lo up : Char) : Bool := c == lo || c == up

/-- Number of characters removed from the end of the title by the regex sub
stripping a trailing recognized ebook extension (utils.py line 8): 4 for a
dot followed by pdf or txt, 5 for a dot followed by epub or mobi (all
case-insensitive), otherwise 0.  The end of the string is examined via its
reversal. -/
def extDropCount (l : List Char) : Nat :=
  match l.reverse with
  | c1 :: c2 :: c3 :: c4 :: rest =>
    if eqCI c1 'f' 'F' && eqCI c2 'd' 'D' && eqCI c3 'p' 'P' && c4 == '.' then 4
    else if eqCI c1 't' 'T' && eqCI c2 'x' 'X' && eqCI c3 't' 'T' && c4 == '.' then 4
    else
      match rest with
      | c5 :: _ =>
        if eqCI c1 'b' 'B' && eqCI c2 'u' 'U' && eqCI c3 'p' 'P' && eqCI c4 'e' 'E'
            && c5 == '.' then 5
        else if eqCI c1 'i' 'I' && eqCI c2 'b' 'B' && eqCI c3 'o' 'O' && eqCI c4 'm' 'M'
            && c5 == '.' then 5
        else 0
      | [] => 0
  | _ => 0

/-- Step 1 of clean_title (utils.py line 8): strip one trailing recognized
ebook extension. -/
def stripExt (l : List Char) : List Char := l.take (l.length - extDropCount l)

/-- Step 2 of clean_title (utils.py line 10): every character that is not a
word character, whitespace, or a hyphen is replaced by a space. -/
def replSpecial (c : Char) : Char :=
  if isWordChar c || c.isWhitespace || c == '-' then c else ' '

/-- Model of Python str.split with no argument (utils.py line 12): maximal
runs of non-whitespace characters, runs of whitespace discarded.  A
non-whitespace character either closes a one-character word (end of input
or whitespace next), or is prepended to the word the rest of the input
opens with. -/
def splitWords : List Char → List (List Char)
  | [] => []
  | c :: cs =>
    if c.isWhitespace then splitWords cs
    else
      match cs with
      | [] => [[c]]
      | d :: _ =>
        if d.isWhitespace then [c] :: splitWords cs
        else
          match splitWords cs with
          | [] => [[c]]
          | w :: ws => (c :: w) :: ws

/-- Step 3 of clean_title (utils.py line 12): whitespace normalization, the
space-join of the whitespace-split of the string. -/
def collapseWs (l : List Char) : List Char := List.intercalate [' '] (splitWords l)

/-- The clean_title pipeline of utils.py lines 5 to 13, on character lists. -/
def cleanTitleChars (l : List Char) : List Char := collapseWs ((stripExt l).map replSpecial)

/-- clean_title from utils.py: strip a trailing ebook extension, replace
special characters by spaces, normalize whitespace. -/
def clean_title (s : String) : String := String.mk (cleanTitleChars s.data)

/-- Executable check that a character list never has two consecutive space
characters. -/
def noDoubleSpace : List Char → Bool
  | [] => true
  | [_] => true
  | a :: b :: rest => !(a == ' ' && b == ' ') && noDoubleSpace (b :: rest)

/-- The ten decimal digit characters. -/
def digitChars : List Char := ['0','1','2','3','4','5','6','7','8','9']

/-- Decimal digit character for a digit value. -/
def digitChar (n : Nat) : Char := digitChars.getD n '0'

/-- Decimal representation of a natural number as produced by Python str on a
nonnegative int: no sign, no leading zeros. -/
def natDigits (n : Nat) : List Char :=
  if _h : n < 10 then [digitChar n]
  else natDigits (n / 10) ++ [digitChar (n % 10)]
termination_by n
decreasing_by
  exact Nat.div_lt_self (by omega) (by omega)

/-- Numeric value of a decimal digit character. -/
def digitVal (c : Char) : Nat := c.toNat - 48

/-- Model of Python int applied to the page field of the callback payload
(handlers.py line 199), restricted to nonnegative decimal literals: a
nonempty all-digit string parses to its value, anything else raises, which
the surrounding handler turns into a failure. -/
def parseNat (l : List Char) : Option Nat :=
  if !l.isEmpty && l.all Char.isDigit then
    some (l.foldl (fun a c => a * 10 + digitVal c) 0)
  else none

/-- The navigation callback payload built by create_pagination_keyboard
(utils.py lines 30 and 39): the f-string page underscore pageNumber
underscore query. -/
def page_callback_data (p : Nat) (q : String) : String :=
  String.mk (['p','a','g','e'] ++ '_' :: natDigits p ++ '_' :: q.data)

/-- Model of Python str.split with separator underscore and maxsplit 2,
peeling one part: the characters before the first underscore and the rest,
or none when no underscore occurs. -/
def splitOnce (l : List Char) : Option (List Char × List Char) :=
  match l with
  | [] => none
  | c :: cs =>
    if c == '_' then some ([], cs)
    else (splitOnce cs).map (fun pr => (c :: pr.1, pr.2))

/-- The decoding performed by handle_pagination (handlers.py lines 198 to
199): split the payload on the first two underscores, discard the first
part, parse the second as the page number, keep the remainder verbatim as
the query.  Any failure (fewer than three parts, non-numeric page) raises
in Python and is caught by the handler; modelled as none. -/
def handle_pagination_decode (s : String) : Option (Nat × String) :=
  match splitOnce s.data with
  | none => none
  | some (_, r1) =>
    match splitOnce r1 with
    | none => none
    | some (pstr, q) => (parseNat pstr).map (fun p => (p, String.mk q))

/-- A row of the ebooks table (database.py lines 19 to 28).  The id column is
the AUTOINCREMENT primary key; added_date is the CURRENT_TIMESTAMP default. -/
structure Book where
  id : Nat
  title : String
  message_id : Int
  chat_id : Int
  file_id : String
  added_date : Nat
deriving DecidableEq

/-- The ebooks table: rows kept in rowid (insertion) order. -/
structure EbooksDb where
  rows : List Book
deriving DecidableEq

/-- The projection SELECTed by the book queries: title, message_id, chat_id,
file_id. -/
abbrev BookRow := String × Int × Int × String

/-- Projection of a stored row onto the SELECTed columns. -/
def projBook (b : Book) : BookRow := (b.title, b.message_id, b.chat_id, b.file_id)

/-- check_book_exists (database.py lines 105 to 122): SELECT with an exact
title match and LIMIT 1, no ORDER BY.  SQLite scans rows (or the title
index, which orders equal keys by rowid) in rowid order, so the first match
in insertion order is returned. -/
def check_book_exists (db : EbooksDb) (title : String) : Option BookRow :=
  (db.rows.find? (fun b => b.title == title)).map projBook

/-- add_book (database.py lines 124 to 145): return false without writing
when check_book_exists finds a row (a 4-tuple is always truthy in Python),
otherwise INSERT and return true.  The fresh id and timestamp are passed
explicitly. -/
def add_book (db : EbooksDb) (title : String) (message_id chat_id : Int)
    (file_id : String) (newId newDate : Nat) : Bool × EbooksDb :=
  match check_book_exists db title with
  | some _ => (false, db)
  | none => (true, ⟨db.rows ++ [⟨newId, title, message_id, chat_id, file_id, newDate⟩]⟩)

/-- check_message_exists (database.py lines 326 to 341): COUNT of rows of the
ebooks table itself with the given chat_id and message_id, compared with 0.
Note that this consults the ebooks table, not the chat transport. -/
def check_message_exists (db : EbooksDb) (chat_id message_id : Int) : Bool :=
  db.rows.any (fun b => b.chat_id == chat_id && b.message_id == message_id)

/-- remove_deleted_messages (database.py lines 343 to 358): DELETE all rows
with the given chat_id and message_id. -/
def remove_deleted_messages (db : EbooksDb) (chat_id message_id : Int) : EbooksDb :=
  ⟨db.rows.filter (fun b => !(b.chat_id == chat_id && b.message_id == message_id))⟩

/-- ASCII lowercasing, the case folding applied by the default SQLite LIKE
and by Python str.lower on ASCII input. -/
def asciiLower (c : Char) : Char :=
  if c.toNat ≥ 65 && c.toNat ≤ 90 then Char.ofNat (c.toNat + 32) else c

/-- Whether q occurs as a contiguous sublist of t. -/
def hasSub (t q : List Char) : Bool :=
  q.isPrefixOf t ||
    match t with
    | [] => false
    | _ :: ts => hasSub ts q

/-- Model of the SQLite pattern title LIKE percent query percent (database.py
line 156): case-insensitive substring containment, for queries without the
LIKE metacharacters percent and underscore. -/
def likeMatch (t q : String) : Bool :=
  hasSub (t.data.map asciiLower) (q.data.map asciiLower)

/-- The rows of the ebooks table matching the WHERE clause of the search CTE
(database.py line 165). -/
def matchingRows (db : EbooksDb) (q : String) : List Book :=
  db.rows.filter (fun b => likeMatch b.title q)

/-- Whether a row receives ROW_NUMBER 1 in its title partition when ordered
by added_date descending (database.py line 163); ties on added_date are
broken by rowid, matching the stable order in which SQLite feeds the
window. -/
def isCanonical (rows : List Book) (b : Book) : Bool :=
  rows.all (fun b2 => b2.title != b.title || decide (b2.added_date < b.added_date) ||
    (b2.added_date == b.added_date && decide (b.id ≤ b2.id)))

/-- The rn equals 1 rows of the search CTE: the latest version of each
matching title.  Their number is the total_count subquery of database.py
lines 168 to 170. -/
def canonicalRows (rows : List Book) : List Book := rows.filter (isCanonical rows)

/-- The outer ORDER BY added_date DESC of the search query. -/
def dateDesc (a b : Book) : Prop := b.added_date ≤ a.added_date

instance : DecidableRel dateDesc := fun a b => Nat.decLe b.added_date a.added_date

/-- The ordered candidate list of the search query before LIMIT and OFFSET. -/
def sortedCanonical (db : EbooksDb) (q : String) : List Book :=
  List.insertionSort dateDesc (canonicalRows (matchingRows db q))

/-- The rows of one result page: LIMIT 10 OFFSET (page minus 1) times 10
(database.py lines 159 and 174). -/
def pageRows (db : EbooksDb) (q : String) (page : Nat) : List Book :=
  ((sortedCanonical db q).drop ((page - 1) * 10)).take 10

/-- The validation loop of search_books (database.py lines 186 to 195): keep
rows whose (chat_id, message_id) passes check_message_exists against the
evolving store, otherwise delete them via remove_deleted_messages and
decrement the count. -/
def searchFilterLoop : List BookRow → EbooksDb → Int → List BookRow × EbooksDb × Int
  | [], db, cnt => ([], db, cnt)
  | r :: rs, db, cnt =>
    if check_message_exists db r.2.2.1 r.2.1 then
      let rest := searchFilterLoop rs db cnt
      (r :: rest.1, rest.2)
    else
      searchFilterLoop rs (remove_deleted_messages db r.2.2.1 r.2.1) (cnt - 1)

/-- search_books (database.py lines 147 to 202) with per_page 10: run the
paginated window query; if it yields no rows return the empty list and
total 0; otherwise run the validation loop over the page and return the
kept rows, the adjusted count, and the resulting store state. -/
def search_books (db : EbooksDb) (q : String) (page : Nat) :
    List BookRow × Int × EbooksDb :=
  let results := (pageRows db q page).map projBook
  if results.isEmpty then ([], 0, db)
  else
    let total : Int := (canonicalRows (matchingRows db q)).length
    let out := searchFilterLoop results db total
    (out.1, out.2.2, out.2.1)

/-- The total page computation of format_search_results (utils.py lines 55
to 56) with per_page 10. -/
def format_total_pages (total_count : Nat) : Nat := (total_count + 10 - 1) / 10

/-- A row of the advertisements table (database.py lines 35 to 43). -/
structure Ad where
  id : Nat
  text : String
  url : String
  is_active : Bool
deriving DecidableEq

/-- remove_advertisement (database.py lines 257 to 271): UPDATE setting
is_active to 0 on every row with the given id (no is_active condition in
the WHERE clause), returning whether the statement touched at least one
row; the SQLite change counter counts every row matched by the WHERE
clause, including rows that were already inactive. -/
def remove_advertisement (ads : List Ad) (ad_id : Nat) : Bool × List Ad :=
  (decide (0 < ads.countP (fun a => a.id == ad_id)),
   ads.map (fun a => if a.id == ad_id then { a with is_active := false } else a))

/-- The outcome of handle_document, abstracting the chat replies. -/
inductive IngestResult where
  | unsupported
  | duplicate (existing : BookRow)
  | success
  | failure
deriving DecidableEq

/-- The supported ebook extensions of handlers.py line 236. -/
def supported_extensions : List (List Char) :=
  [['.','p','d','f'], ['.','e','p','u','b'], ['.','m','o','b','i'], ['.','t','x','t']]

/-- The extension test of handlers.py line 237: lowercase the file name and
test each supported extension as a suffix. -/
def isEbookFile (fileName : String) : Bool :=
  supported_extensions.any (fun e => e.isSuffixOf (fileName.data.map asciiLower))

/-- The store-relevant logic of handle_document (handlers.py lines 216 to
299): reject unsupported extensions; normalize the title; if a row with
that title exists, either report a duplicate (when check_message_exists
accepts its reference) or delete it and insert; otherwise insert via
add_book. -/
def handle_document (db : EbooksDb) (fileName : String) (message_id chat_id : Int)
    (file_id : String) (newId newDate : Nat) : IngestResult × EbooksDb :=
  if !isEbookFile fileName then (.unsupported, db)
  else
    let title := clean_title fileName
    match check_book_exists db title with
    | some existing =>
      if check_message_exists db existing.2.2.1 existing.2.1 then
        (.duplicate existing, db)
      else
        let db1 := remove_deleted_messages db existing.2.2.1 existing.2.1
        let res := add_book db1 title message_id chat_id file_id newId newDate
        (if res.1 then .success else .failure, res.2)
    | none =>
      let res := add_book db title message_id chat_id file_id newId newDate
      (if res.1 then .success else .failure, res.2)

/-- A store with one row titled X; in the scenario of the reconciliation
claims, the source message (chat 100, message 5) has been deleted from the
chat by the transport, a fact the store cannot observe. -/
def c1db : EbooksDb := ⟨[⟨1, String.mk ['X'], 5, 100, String.mk ['f'], 1⟩]⟩

/-- Two rows sharing the title X: row id 1 inserted first, row id 2 inserted
later with a later added_date. -/
def c2dupDb : EbooksDb :=
  ⟨[⟨1, String.mk ['X'], 5, 100, String.mk ['f','1'], 1⟩,
    ⟨2, String.mk ['X'], 6, 100, String.mk ['f','2'], 2⟩]⟩

/-- The earlier of the two duplicate rows of c2dupDb. -/
def c2first : Book := ⟨1, String.mk ['X'], 5, 100, String.mk ['f','1'], 1⟩

/-- The later of the two duplicate rows of c2dupDb. -/
def c2last : Book := ⟨2, String.mk ['X'], 6, 100, String.mk ['f','2'], 2⟩

/-- A store with one row titled X whose source message is gone externally,
used for the stale-reclaim claim. -/
def c3db : EbooksDb := ⟨[⟨1, String.mk ['X'], 5, 100, String.mk ['f'], 1⟩]⟩

/-- A single advertisement row that is already inactive. -/
def c4inactiveAd : Ad := ⟨1, String.mk ['t'], String.mk ['u'], false⟩

/-- An advertisement list with one active row, for the amended-claim
witness. -/
def c4activeAds : List Ad := [⟨1, String.mk ['t'], String.mk ['u'], true⟩]

/-- A store that already contains a row titled X, for the duplicate-rejection
witness. -/
def c5db : EbooksDb := ⟨[⟨1, String.mk ['X'], 5, 100, String.mk ['f'], 1⟩]⟩

/-- A store with 23 rows with pairwise distinct titles, every title a
nonempty run of the letter b, so that a search for b matches all 23. -/
def c8db : EbooksDb :=
  ⟨(List.range 23).map
    (fun i => ⟨i, String.mk (List.replicate (i + 1) 'b'), (i : Int), 100,
      String.mk ['f'], i⟩)⟩

/-- A store with a single row titled Y, so a search for Y has matches on page
1 but none on page 2. -/
def c9db : EbooksDb := ⟨[⟨1, String.mk ['Y'], 7, 100, String.mk ['f'], 1⟩]⟩

/-- The replacement at utils.py line 10 always yields a word character, a
whitespace character, or a hyphen. -/
theorem replSpecial_class (c : Char) :
    isWordChar (replSpecial c) = true ∨ (replSpecial c).isWhitespace = true ∨
      replSpecial c = '-' := by
  by_cases h : (isWordChar c || c.isWhitespace || c == '-') = true
  · rcases (by simpa using h : (isWordChar c = true ∨ c.isWhitespace = true) ∨ c = '-') with
      (h1 | h2) | h3
    · exact Or.inl (by simpa [replSpecial, h] using h1)
    · exact Or.inr (Or.inl (by simpa [replSpecial, h] using h2))
    · exact Or.inr (Or.inr (by simp [replSpecial, h, h3]))
  · have : replSpecial c = ' ' := by simp [replSpecial, h]
    exact Or.inr (Or.inl (by rw [this]; decide))

/-- Replacing special characters is idempotent. -/
theorem replSpecial_idem (c : Char) : replSpecial (replSpecial c) = replSpecial c := by
  by_cases h : (isWordChar c || c.isWhitespace || c == '-') = true
  · have hc : replSpecial c = c := by simp [replSpecial, h]
    rw [hc, replSpecial, if_pos h]
  · have hc : replSpecial c = ' ' := by simp [replSpecial, h]
    rw [hc]; decide

/-- The replacement never produces a dot. -/
theorem replSpecial_ne_dot (c : Char) : replSpecial c ≠ '.' := by
  by_cases h : (isWordChar c || c.isWhitespace || c == '-') = true
  · have hc : replSpecial c = c := by simp [replSpecial, h]
    rw [hc]
    intro hdot
    rw [hdot] at h
    exact absurd h (by decide)
  · have hc : replSpecial c = ' ' := by simp [replSpecial, h]
    rw [hc]; decide

/-- A map whose function fixes every member of a list fixes the list. -/
theorem map_eq_self_of (l : List Char) (f : Char → Char) (h : ∀ c ∈ l, f c = c) :
    l.map f = l := by
  induction l with
  | nil => rfl
  | cons a as ih =>
    simp only [List.map_cons, h a (by simp), ih (fun c hc => h c (by simp [hc]))]

/-- Every word produced by the whitespace split is nonempty and consists of
non-whitespace characters of the input. -/
theorem splitWords_sound (l : List Char) :
    ∀ w ∈ splitWords l, w ≠ [] ∧ ∀ c ∈ w, c.isWhitespace = false ∧ c ∈ l := by
  induction l with
  | nil => intro w hw; simp [splitWords] at hw
  | cons c cs ih =>
    intro w hw
    rw [splitWords.eq_def] at hw
    dsimp only at hw
    by_cases hc : c.isWhitespace
    · rw [if_pos hc] at hw
      obtain ⟨h1, h2⟩ := ih w hw
      exact ⟨h1, fun x hx => ⟨(h2 x hx).1, List.mem_cons_of_mem c (h2 x hx).2⟩⟩
    · rw [if_neg hc] at hw
      have hcf : c.isWhitespace = false := by simpa using hc
      cases cs with
      | nil =>
        simp at hw
        subst hw
        exact ⟨by simp, fun x hx => by simp at hx; subst hx; exact ⟨hcf, by simp⟩⟩
      | cons d ds =>
        dsimp only at hw
        by_cases hd : d.isWhitespace
        · rw [if_pos hd] at hw
          rcases List.mem_cons.mp hw with h1 | h2
          · subst h1
            exact ⟨by simp, fun x hx => by simp at hx; subst hx; exact ⟨hcf, by simp⟩⟩
          · obtain ⟨h3, h4⟩ := ih w h2
            exact ⟨h3, fun x hx => ⟨(h4 x hx).1, List.mem_cons_of_mem c (h4 x hx).2⟩⟩
        · rw [if_neg hd] at hw
          cases hsw : splitWords (d :: ds) with
          | nil =>
            rw [hsw] at hw
            simp at hw
            subst hw
            exact ⟨by simp, fun x hx => by simp at hx; subst hx; exact ⟨hcf, by simp⟩⟩
          | cons w0 ws0 =>
            rw [hsw] at hw
            rcases List.mem_cons.mp hw with h1 | h2
            · subst h1
              refine ⟨by simp, fun x hx => ?_⟩
              rcases List.mem_cons.mp hx with h3 | h4
              · subst h3; exact ⟨hcf, by simp⟩
              · have hmem : w0 ∈ splitWords (d :: ds) := by rw [hsw]; simp
                obtain ⟨_, h5⟩ := ih w0 hmem
                exact ⟨(h5 x h4).1, List.mem_cons_of_mem c (h5 x h4).2⟩
            · have hmem : w ∈ splitWords (d :: ds) := by rw [hsw]; simp [h2]
              obtain ⟨h3, h4⟩ := ih w hmem
              exact ⟨h3, fun x hx => ⟨(h4 x hx).1, List.mem_cons_of_mem c (h4 x hx).2⟩⟩

/-- A nonempty all non-whitespace string splits into the single word itself. -/
theorem splitWords_single (w : List Char) (hne : w ≠ [])
    (hns : ∀ c ∈ w, c.isWhitespace = false) : splitWords w = [w] := by
  induction w with
  | nil => exact absurd rfl hne
  | cons c cs ih =>
    have hc : c.isWhitespace = false := hns c (by simp)
    cases cs with
    | nil => simp [splitWords, hc]
    | cons d ds =>
      have hd : d.isWhitespace = false := hns d (by simp)
      have hrec := ih (by simp) (fun x hx => hns x (by simp [hx]))
      rw [splitWords.eq_def]
      dsimp only
      rw [if_neg (by simp [hc]), if_neg (by simp [hd]), hrec]

/-- Splitting a nonempty non-whitespace word, a space, and a remainder yields
the word followed by the split of the remainder. -/
theorem splitWords_word_append (w rest : List Char) (hne : w ≠ [])
    (hns : ∀ c ∈ w, c.isWhitespace = false) :
    splitWords (w ++ ' ' :: rest) = w :: splitWords rest := by
  induction w with
  | nil => exact absurd rfl hne
  | cons c cs ih =>
    have hc : c.isWhitespace = false := hns c (by simp)
    have hsp : (' ').isWhitespace = true := by decide
    cases cs with
    | nil =>
      show splitWords (c :: ' ' :: rest) = [c] :: splitWords rest
      rw [splitWords.eq_def]
      dsimp only
      rw [if_neg (by simp [hc]), if_pos hsp, splitWords.eq_def]
      dsimp only
      rw [if_pos hsp]
    | cons c2 cs2 =>
      have hc2 : c2.isWhitespace = false := hns c2 (by simp)
      have hrec := ih (by simp) (fun x hx => hns x (by simp [hx]))
      simp only [List.cons_append] at hrec ⊢
      rw [splitWords.eq_def]
      dsimp only
      rw [if_neg (by simp [hc]), if_neg (by simp [hc2]), hrec]

/-- The space-join of the empty word list. -/
theorem intercalate_nil : List.intercalate [' '] ([] : List (List Char)) = [] := by
  simp [List.intercalate]

/-- The space-join of a single word. -/
theorem intercalate_single (w : List Char) : List.intercalate [' '] [w] = w := by
  simp [List.intercalate]

/-- The space-join of two or more words peels the first word and one space. -/
theorem intercalate_cons_two (w y : List Char) (ys : List (List Char)) :
    List.intercalate [' '] (w :: y :: ys) = w ++ ' ' :: List.intercalate [' '] (y :: ys) := by
  simp [List.intercalate, List.intersperse]

/-- Splitting the space-join of nonempty non-whitespace words recovers the
words: the split and the join are mutually inverse on canonical data. -/
theorem splitWords_intercalate (ws : List (List Char))
    (h1 : ∀ w ∈ ws, w ≠ []) (h2 : ∀ w ∈ ws, ∀ c ∈ w, c.isWhitespace = false) :
    splitWords (List.intercalate [' '] ws) = ws := by
  induction ws with
  | nil => rw [intercalate_nil]; rfl
  | cons w ws ih =>
    cases ws with
    | nil =>
      rw [intercalate_single]
      exact splitWords_single w (h1 w (by simp)) (h2 w (by simp))
    | cons w2 ws2 =>
      rw [intercalate_cons_two,
        splitWords_word_append w _ (h1 w (by simp)) (fun c hc => h2 w (by simp) c hc),
        ih (fun x hx => h1 x (by simp [hx])) (fun x hx => h2 x (by simp [hx]))]

/-- Every character of a space-join is a space or lies in one of the words. -/
theorem mem_intercalate_space (ws : List (List Char)) (c : Char)
    (h : c ∈ List.intercalate [' '] ws) : c = ' ' ∨ ∃ w, w ∈ ws ∧ c ∈ w := by
  induction ws with
  | nil => rw [intercalate_nil] at h; simp at h
  | cons w ws ih =>
    cases ws with
    | nil =>
      rw [intercalate_single] at h
      exact Or.inr ⟨w, by simp, h⟩
    | cons w2 ws2 =>
      rw [intercalate_cons_two] at h
      rcases List.mem_append.mp h with h1 | h2
      · exact Or.inr ⟨w, by simp, h1⟩
      · rcases List.mem_cons.mp h2 with h3 | h4
        · exact Or.inl h3
        · rcases ih h4 with h5 | ⟨w3, hw3, hc3⟩
          · exact Or.inl h5
          · exact Or.inr ⟨w3, by simp [hw3], hc3⟩

/-- The head of a space-join is the head of its first word. -/
theorem intercalate_head (w : List Char) (ws : List (List Char)) (hne : w ≠ []) :
    (List.intercalate [' '] (w :: ws)).head? = w.head? := by
  cases ws with
  | nil => rw [intercalate_single]
  | cons y ys =>
    rw [intercalate_cons_two]
    exact List.head?_append_of_ne_nil _ hne

/-- A space-join with a nonempty first word is nonempty. -/
theorem intercalate_ne_nil (w : List Char) (ws : List (List Char)) (hne : w ≠ []) :
    List.intercalate [' '] (w :: ws) ≠ [] := by
  intro h
  have hh := intercalate_head w ws hne
  rw [h] at hh
  cases w with
  | nil => exact hne rfl
  | cons a as => simp at hh

/-- The last character of a space-join of nonempty non-whitespace words is
not whitespace. -/
theorem intercalate_getLast_nonspace (ws : List (List Char))
    (h1 : ∀ w ∈ ws, w ≠ []) (h2 : ∀ w ∈ ws, ∀ c ∈ w, c.isWhitespace = false) :
    ∀ x, (List.intercalate [' '] ws).getLast? = some x → x.isWhitespace = false := by
  induction ws with
  | nil => intro x hx; rw [intercalate_nil] at hx; simp at hx
  | cons w ws ih =>
    intro x hx
    cases ws with
    | nil =>
      rw [intercalate_single] at hx
      have hmem : x ∈ w := by
        rcases List.mem_getLast?_eq_getLast (l := w) (x := x) hx with ⟨hh, hxx⟩
        rw [hxx]
        exact List.getLast_mem hh
      exact h2 w (by simp) x hmem
    | cons w2 ws2 =>
      rw [intercalate_cons_two] at hx
      have hrest : List.intercalate [' '] (w2 :: ws2) ≠ [] :=
        intercalate_ne_nil w2 ws2 (h1 w2 (by simp))
      rw [List.getLast?_append_of_ne_nil w (by simp)] at hx
      rw [show (' ' :: List.intercalate [' '] (w2 :: ws2)) =
        [' '] ++ List.intercalate [' '] (w2 :: ws2) from rfl] at hx
      rw [List.getLast?_append_of_ne_nil [' '] hrest] at hx
      exact ih (fun a ha => h1 a (by simp [ha])) (fun a ha => h2 a (by simp [ha])) x hx

/-- Prepending non-whitespace characters preserves the absence of double
spaces. -/
theorem noDoubleSpace_append (w l : List Char)
    (hw : ∀ c ∈ w, c.isWhitespace = false) (hl : noDoubleSpace l = true) :
    noDoubleSpace (w ++ l) = true := by
  induction w with
  | nil => simpa using hl
  | cons a as ih =>
    have ha : (a == ' ') = false := by
      have hns := hw a (by simp)
      cases haeq : a == ' ' with
      | false => rfl
      | true =>
        rw [beq_iff_eq.mp haeq] at hns
        exact absurd hns (by decide)
    have hrec := ih (fun c hc => hw c (by simp [hc]))
    cases hconc : as ++ l with
    | nil =>
      have : (a :: as) ++ l = [a] := by simp [hconc]
      rw [this]
      rfl
    | cons b rest =>
      have hstep : (a :: as) ++ l = a :: b :: rest := by simp [hconc]
      rw [hstep, noDoubleSpace, ha, ← hconc]
      simp [hrec]

/-- The space-join of nonempty non-whitespace words never contains two
consecutive spaces. -/
theorem noDoubleSpace_intercalate (ws : List (List Char))
    (h1 : ∀ w ∈ ws, w ≠ []) (h2 : ∀ w ∈ ws, ∀ c ∈ w, c.isWhitespace = false) :
    noDoubleSpace (List.intercalate [' '] ws) = true := by
  induction ws with
  | nil => rw [intercalate_nil]; rfl
  | cons w ws ih =>
    cases ws with
    | nil =>
      rw [intercalate_single]
      have := noDoubleSpace_append w [] (h2 w (by simp)) (by rfl)
      simpa using this
    | cons w2 ws2 =>
      rw [intercalate_cons_two]
      apply noDoubleSpace_append w _ (h2 w (by simp))
      have hrec := ih (fun a ha => h1 a (by simp [ha])) (fun a ha => h2 a (by simp [ha]))
      have hhead := intercalate_head w2 ws2 (h1 w2 (by simp))
      rcases hr : List.intercalate [' '] (w2 :: ws2) with _ | ⟨r0, rrest⟩
      · exact absurd hr (intercalate_ne_nil w2 ws2 (h1 w2 (by simp)))
      · have hr0 : r0.isWhitespace = false := by
          rw [hr] at hhead
          cases hw2 : w2 with
          | nil => exact absurd hw2 (h1 w2 (by simp))
          | cons c0 cs0 =>
            rw [hw2] at hhead
            simp at hhead
            rw [hhead]
            exact h2 w2 (by simp) c0 (by simp [hw2])
        have hr0s : (r0 == ' ') = false := by
          cases hbeq : r0 == ' ' with
          | false => rfl
          | true =>
            rw [beq_iff_eq.mp hbeq] at hr0
            exact absurd hr0 (by decide)
        rw [noDoubleSpace]
        simp only [hr0s, Bool.and_false, Bool.not_false, Bool.true_and]
        rw [← hr]
        exact hrec

/-- Every character of a cleaned title is a space or a non-whitespace output
of the special-character replacement. -/
theorem cleanTitleChars_mem (l : List Char) (c : Char) (hc : c ∈ cleanTitleChars l) :
    c = ' ' ∨ (c.isWhitespace = false ∧ c ∈ (stripExt l).map replSpecial) := by
  rcases mem_intercalate_space _ c hc with h | ⟨w, hw, hcw⟩
  · exact Or.inl h
  · have hs := splitWords_sound _ w hw
    exact Or.inr ⟨(hs.2 c hcw).1, (hs.2 c hcw).2⟩

/-- A cleaned title never contains a dot. -/
theorem cleanTitleChars_no_dot (l : List Char) : '.' ∉ cleanTitleChars l := by
  intro h
  rcases cleanTitleChars_mem l '.' h with h1 | ⟨_, h2⟩
  · exact absurd h1 (by decide)
  · rcases List.mem_map.mp h2 with ⟨c0, _, hc0⟩
    exact replSpecial_ne_dot c0 hc0

/-- A string without a dot has no trailing recognized extension. -/
theorem extDropCount_eq_zero (l : List Char) (h : '.' ∉ l) : extDropCount l = 0 := by
  unfold extDropCount
  split
  · next x c1 c2 c3 c4 rest heq =>
    have h4 : c4 ∈ l := List.mem_reverse.mp (by rw [heq]; simp)
    split_ifs with hA hB
    · exfalso
      have : c4 = '.' := by
        simp only [Bool.and_eq_true, beq_iff_eq] at hA
        exact hA.2
      exact h (this ▸ h4)
    · exfalso
      have : c4 = '.' := by
        simp only [Bool.and_eq_true, beq_iff_eq] at hB
        exact hB.2
      exact h (this ▸ h4)
    · split
      · next r c5 tail =>
        have h5 : c5 ∈ l := by
          apply List.mem_reverse.mp
          rw [heq]
          simp
        split_ifs with hC hD
        · exfalso
          have : c5 = '.' := by
            simp only [Bool.and_eq_true, beq_iff_eq] at hC
            exact hC.2
          exact h (this ▸ h5)
        · exfalso
          have : c5 = '.' := by
            simp only [Bool.and_eq_true, beq_iff_eq] at hD
            exact hD.2
          exact h (this ▸ h5)
        · rfl
      · rfl
  · rfl

/-- Stripping an extension from a dot-free string is the identity. -/
theorem stripExt_of_no_dot (l : List Char) (h : '.' ∉ l) : stripExt l = l := by
  unfold stripExt
  rw [extDropCount_eq_zero l h]
  simp

/-- The character-list normalization pipeline is idempotent. -/
theorem cleanTitleChars_idem (l : List Char) :
    cleanTitleChars (cleanTitleChars l) = cleanTitleChars l := by
  have hdot := cleanTitleChars_no_dot l
  have h1 : stripExt (cleanTitleChars l) = cleanTitleChars l := stripExt_of_no_dot _ hdot
  have h2 : (cleanTitleChars l).map replSpecial = cleanTitleChars l := by
    apply map_eq_self_of
    intro c hc
    rcases cleanTitleChars_mem l c hc with h | ⟨_, hmem⟩
    · rw [h]; decide
    · rcases List.mem_map.mp hmem with ⟨c0, _, hc0⟩
      rw [← hc0, replSpecial_idem]
  show collapseWs ((stripExt (cleanTitleChars l)).map replSpecial) = cleanTitleChars l
  rw [h1, h2]
  show List.intercalate [' ']
    (splitWords (List.intercalate [' '] (splitWords ((stripExt l).map replSpecial)))) =
    cleanTitleChars l
  rw [splitWords_intercalate _ (fun w hw => (splitWords_sound _ w hw).1)
    (fun w hw c hcw => ((splitWords_sound _ w hw).2 c hcw).1)]
  rfl

/-- C6: the title normalizer clean_title is idempotent: applying it to its
own output returns that output unchanged, for every input string. -/
theorem clean_title_idempotent (s : String) :
    clean_title (clean_title s) = clean_title s :=
  congrArg String.mk (cleanTitleChars_idem s.data)

/-- C10: every character of a cleaned title is a letter, a digit, an
underscore, a hyphen, or a space; in particular no dot occurs; no two
consecutive spaces occur; and the first and last characters, when present,
are not whitespace. -/
theorem clean_title_output_charset (s : String) :
    (∀ c ∈ (clean_title s).data, isWordChar c = true ∨ c = '-' ∨ c = ' ') ∧
    '.' ∉ (clean_title s).data ∧
    noDoubleSpace (clean_title s).data = true ∧
    (∀ c, (clean_title s).data.head? = some c → c.isWhitespace = false) ∧
    (∀ c, (clean_title s).data.getLast? = some c → c.isWhitespace = false) := by
  have hdata : (clean_title s).data = cleanTitleChars s.data := rfl
  rw [hdata]
  refine ⟨?_, cleanTitleChars_no_dot _, ?_, ?_, ?_⟩
  · intro c hc
    rcases cleanTitleChars_mem _ c hc with h | ⟨hns, hmem⟩
    · exact Or.inr (Or.inr h)
    · rcases List.mem_map.mp hmem with ⟨c0, _, hc0⟩
      rcases replSpecial_class c0 with h1 | h2 | h3
      · exact Or.inl (hc0 ▸ h1)
      · exfalso
        rw [hc0] at h2
        rw [h2] at hns
        exact absurd hns (by simp)
      · exact Or.inr (Or.inl (hc0 ▸ h3))
  · exact noDoubleSpace_intercalate _ (fun w hw => (splitWords_sound _ w hw).1)
      (fun w hw c hcw => ((splitWords_sound _ w hw).2 c hcw).1)
  · intro c hc
    cases hws : splitWords ((stripExt s.data).map replSpecial) with
    | nil =>
      rw [show cleanTitleChars s.data =
        List.intercalate [' '] (splitWords ((stripExt s.data).map replSpecial)) from rfl,
        hws, intercalate_nil] at hc
      simp at hc
    | cons w ws2 =>
      have hwmem : w ∈ splitWords ((stripExt s.data).map replSpecial) := by rw [hws]; simp
      have hne : w ≠ [] := (splitWords_sound _ w hwmem).1
      have hh := intercalate_head w ws2 hne
      rw [show cleanTitleChars s.data =
        List.intercalate [' '] (splitWords ((stripExt s.data).map replSpecial)) from rfl,
        hws, hh] at hc
      cases hwc : w with
      | nil => exact absurd hwc hne
      | cons c1 cs1 =>
        rw [hwc] at hc
        simp at hc
        rw [← hc]
        exact ((splitWords_sound _ w hwmem).2 c1 (by simp [hwc])).1
  · intro c hc
    exact intercalate_getLast_nonspace (splitWords ((stripExt s.data).map replSpecial))
      (fun w hw => (splitWords_sound _ w hw).1)
      (fun w hw x hxw => ((splitWords_sound _ w hw).2 x hxw).1) c hc

/-- Every digit character produced for a digit value is a decimal digit. -/
theorem digitChar_isDigit (n : Nat) : (digitChar n).isDigit = true := by
  by_cases h : n < 10
  · interval_cases n <;> decide
  · have hlen : digitChars.length ≤ n := by simp [digitChars]; omega
    rw [digitChar, List.getD_eq_default _ _ hlen]
    decide

/-- Reading back the digit character of a digit value below ten recovers the
value. -/
theorem digitVal_digitChar (n : Nat) (h : n < 10) : digitVal (digitChar n) = n := by
  interval_cases n <;> decide

/-- The decimal representation is nonempty and consists of digits. -/
theorem natDigits_spec (n : Nat) :
    natDigits n ≠ [] ∧ ∀ c ∈ natDigits n, c.isDigit = true := by
  induction n using Nat.strong_induction_on with
  | _ n ih =>
    by_cases h : n < 10
    · rw [natDigits, dif_pos h]
      exact ⟨by simp, fun c hc => by
        simp at hc
        rw [hc]
        exact digitChar_isDigit n⟩
    · rw [natDigits, dif_neg h]
      have hrec := ih (n / 10) (Nat.div_lt_self (by omega) (by omega))
      refine ⟨by simp, fun c hc => ?_⟩
      rcases List.mem_append.mp hc with h1 | h2
      · exact hrec.2 c h1
      · simp at h2
        rw [h2]
        exact digitChar_isDigit (n % 10)

/-- Folding the decimal digits onto an accumulator computes the value. -/
theorem foldl_natDigits (n : Nat) : ∀ a : Nat,
    (natDigits n).foldl (fun acc c => acc * 10 + digitVal c) a =
      a * 10 ^ (natDigits n).length + n := by
  induction n using Nat.strong_induction_on with
  | _ n ih =>
    intro a
    by_cases h : n < 10
    · rw [natDigits, dif_pos h]
      simp [digitVal_digitChar n h]
    · rw [natDigits, dif_neg h]
      have hrec := ih (n / 10) (Nat.div_lt_self (by omega) (by omega))
      rw [List.foldl_append, hrec a]
      have hmod : n % 10 < 10 := Nat.mod_lt n (by omega)
      simp only [List.foldl_cons, List.foldl_nil, List.length_append, List.length_cons,
        List.length_nil, digitVal_digitChar _ hmod]
      have hdm := Nat.div_add_mod n 10
      rw [pow_succ]
      ring_nf
      omega

/-- Parsing the decimal representation of a natural number recovers it. -/
theorem parseNat_natDigits (n : Nat) : parseNat (natDigits n) = some n := by
  obtain ⟨hne, hdig⟩ := natDigits_spec n
  rw [parseNat, if_pos]
  · rw [foldl_natDigits n 0]
    simp
  · simp only [Bool.and_eq_true, Bool.not_eq_true', List.isEmpty_eq_false_iff_exists_mem]
    constructor
    · rcases hl : natDigits n with _ | ⟨c, cs⟩
      · exact absurd hl hne
      · simp [List.isEmpty]
    · exact List.all_eq_true.mpr hdig

/-- A digit character is never an underscore. -/
theorem isDigit_ne_underscore (c : Char) (h : c.isDigit = true) : (c == '_') = false := by
  cases hbeq : c == '_' with
  | false => rfl
  | true =>
    rw [beq_iff_eq.mp hbeq] at h
    exact absurd h (by decide)

/-- Splitting at the first underscore of a list that opens with an
underscore-free prefix recovers the prefix and the remainder. -/
theorem splitOnce_append (a r : List Char) (h : ∀ c ∈ a, (c == '_') = false) :
    splitOnce (a ++ '_' :: r) = some (a, r) := by
  induction a with
  | nil => simp [splitOnce]
  | cons c cs ih =>
    have hc : (c == '_') = false := h c (by simp)
    rw [List.cons_append, splitOnce, if_neg (by simp [hc]),
      ih (fun x hx => h x (by simp [hx]))]
    rfl

/-- C7: the navigation payload round-trips: decoding the encoded payload of
any page number and any original query text, by splitting on the first two
underscores, yields exactly that page number and that query text, even when
the query itself contains underscores. -/
theorem pagination_roundtrip (p : Nat) (q : String) :
    handle_pagination_decode (page_callback_data p q) = some (p, q) := by
  have hpage : ∀ c ∈ ['p','a','g','e'], (c == '_') = false := by decide
  have hdig : ∀ c ∈ natDigits p, (c == '_') = false :=
    fun c hc => isDigit_ne_underscore c ((natDigits_spec p).2 c hc)
  show (match splitOnce (['p','a','g','e'] ++ '_' :: (natDigits p ++ '_' :: q.data)) with
    | none => none
    | some (_, r1) =>
      match splitOnce r1 with
      | none => none
      | some (pstr, qd) => (parseNat pstr).map (fun pv => (pv, String.mk qd))) = some (p, q)
  rw [splitOnce_append _ _ hpage]
  dsimp only
  rw [splitOnce_append _ _ hdig]
  dsimp only
  rw [parseNat_natDigits p]
  cases q
  rfl

/-- When every row of a result page passes the existence check against the
store, the validation loop of search_books keeps all rows, leaves the store
untouched, and leaves the count untouched. -/
theorem searchFilterLoop_id (rs : List BookRow) (db : EbooksDb) (t : Int)
    (h : ∀ r ∈ rs, check_message_exists db r.2.2.1 r.2.1 = true) :
    searchFilterLoop rs db t = (rs, db, t) := by
  induction rs generalizing t with
  | nil => rfl
  | cons r rs ih =>
    rw [searchFilterLoop, if_pos (h r (by simp)), ih t (fun x hx => h x (by simp [hx]))]

/-- Any row stored in the ebooks table passes check_message_exists against
that same table: the staleness test is a tautology for fetched rows. -/
theorem check_message_exists_of_mem (db : EbooksDb) (b : Book) (hb : b ∈ db.rows) :
    check_message_exists db b.chat_id b.message_id = true := by
  rw [check_message_exists, List.any_eq_true]
  exact ⟨b, hb, by simp⟩

/-- Every row of a result page is a row of the store. -/
theorem pageRows_mem (db : EbooksDb) (q : String) (page : Nat) :
    ∀ b ∈ pageRows db q page, b ∈ db.rows := by
  intro b hb
  have h1 : b ∈ (sortedCanonical db q).drop ((page - 1) * 10) := List.take_subset _ _ hb
  have h2 : b ∈ sortedCanonical db q := List.drop_subset _ _ h1
  have h3 : b ∈ canonicalRows (matchingRows db q) :=
    (List.perm_insertionSort dateDesc _).mem_iff.mp h2
  have h4 : b ∈ matchingRows db q := List.filter_subset' _ h3
  exact List.filter_subset' _ h4

/-- Evaluation of search_books: the validation loop is the identity, so the
result is exactly the projected page, the raw canonical count (or 0 on an
empty page), and the unchanged store. -/
theorem search_books_eval (db : EbooksDb) (q : String) (page : Nat) :
    search_books db q page =
      ((pageRows db q page).map projBook,
       (if pageRows db q page = [] then 0
        else ((canonicalRows (matchingRows db q)).length : Int)),
       db) := by
  by_cases hp : pageRows db q page = []
  · simp [search_books, hp]
  · have hloop : searchFilterLoop ((pageRows db q page).map projBook) db
        ((canonicalRows (matchingRows db q)).length : Int) =
        ((pageRows db q page).map projBook, db,
          ((canonicalRows (matchingRows db q)).length : Int)) := by
      apply searchFilterLoop_id
      intro r hr
      rcases List.mem_map.mp hr with ⟨b, hbmem, hproj⟩
      rw [← hproj]
      exact check_message_exists_of_mem db b (pageRows_mem db q page b hbmem)
    simp [search_books, hp, hloop]

/-- C1: refuted on the code.  search_books never deletes an entry, never
excludes one from the returned list, and never decrements the count:
check_message_exists reads the ebooks table itself, which necessarily
contains every fetched row, so the store comes back unchanged and the
count is the raw canonical count whenever the page is nonempty; in
particular the one-row store whose source message is gone externally is
returned intact with count 1. -/
theorem search_books_never_reconciles :
    (∀ db q page, search_books db q page =
      ((pageRows db q page).map projBook,
       (if pageRows db q page = [] then 0
        else ((canonicalRows (matchingRows db q)).length : Int)),
       db)) ∧
    search_books c1db (String.mk ['X']) 1 =
      ([(String.mk ['X'], 5, 100, String.mk ['f'])], 1, c1db) :=
  ⟨search_books_eval, by decide⟩

/-- C9: when the paginated query yields no rows for the requested page,
search_books returns the empty list together with totalCount 0 and the
unchanged store, even when the store contains matching titles. -/
theorem search_books_empty_page (db : EbooksDb) (q : String) (page : Nat)
    (h : pageRows db q page = []) : search_books db q page = ([], 0, db) := by
  simp [search_books, h]

/-- C9 witness: the one-row store has a title matching the query, yet page 2
is empty, so the search returns the empty list with totalCount 0. -/
theorem search_books_empty_page_witness :
    (matchingRows c9db (String.mk ['Y'])).length = 1 ∧
    search_books c9db (String.mk ['Y']) 2 = ([], 0, c9db) :=
  ⟨by decide, search_books_empty_page c9db (String.mk ['Y']) 2 (by decide)⟩

/-- C8: the presenter computes ceil of 23 over the page size 10 as 3 total
pages, and every search whose canonical match count is 23 returns at most 3
entries on page 3. -/
theorem pagination_math :
    format_total_pages 23 = 3 ∧
    ∀ db q, (canonicalRows (matchingRows db q)).length = 23 →
      (search_books db q 3).1.length ≤ 3 := by
  refine ⟨by decide, fun db q h => ?_⟩
  rw [search_books_eval]
  have hsort : (sortedCanonical db q).length = 23 := by
    rw [sortedCanonical, (List.perm_insertionSort dateDesc _).length_eq]
    exact h
  show ((pageRows db q 3).map projBook).length ≤ 3
  rw [List.length_map, pageRows, List.length_take, List.length_drop, hsort]
  omega

/-- C8 witness: the 23-row store has canonical match count 23 for the query
b, and its page 3 carries at most 3 entries. -/
theorem pagination_math_witness :
    (canonicalRows (matchingRows c8db (String.mk ['b']))).length = 23 ∧
    (search_books c8db (String.mk ['b']) 3).1.length ≤ 3 :=
  ⟨by decide, pagination_math.2 c8db (String.mk ['b']) (by decide)⟩

/-- C2 counterexample: in a store whose two rows are both titled X, the
lookup returns the record of the first inserted row (id 1), not the record
of the most recently inserted row (id 2, the last row of the table), and
the two records differ. -/
theorem check_book_exists_cex :
    check_book_exists c2dupDb (String.mk ['X']) = some (projBook c2first) ∧
    c2dupDb.rows.getLast? = some c2last ∧
    c2last.title = String.mk ['X'] ∧
    projBook c2first ≠ projBook c2last := by decide

/-- C2 amended: for every title, check_book_exists returns the earliest
inserted matching record: whenever the table consists of a prefix of
non-matching rows followed by a matching row b and anything after it, the
lookup returns the projection of b. -/
theorem check_book_exists_first_match (pre post : List Book) (b : Book) (t : String)
    (hb : b.title = t) (hpre : ∀ x ∈ pre, x.title ≠ t) :
    check_book_exists ⟨pre ++ b :: post⟩ t = some (projBook b) := by
  induction pre with
  | nil =>
    show (List.find? (fun bk => bk.title == t) ([] ++ b :: post)).map projBook =
      some (projBook b)
    rw [List.nil_append, List.find?_cons_of_pos _ (by simp [hb])]
    rfl
  | cons x xs ih =>
    show (List.find? (fun bk => bk.title == t) ((x :: xs) ++ b :: post)).map projBook =
      some (projBook b)
    rw [List.cons_append, List.find?_cons_of_neg _ (by simp [hpre x (by simp)])]
    exact ih (fun z hz => hpre z (by simp [hz]))

/-- C2 amended witness: in the two-row duplicate store the lookup returns
the first inserted row. -/
theorem check_book_exists_first_match_witness :
    check_book_exists ⟨[] ++ c2first :: [c2last]⟩ (String.mk ['X']) =
      some (projBook c2first) :=
  check_book_exists_first_match [] [c2last] c2first (String.mk ['X'])
    (by decide) (by decide)

/-- C5: when check_book_exists resolves for a title, add_book returns false
and writes nothing: the resulting store is exactly the input store. -/
theorem add_book_duplicate_no_write (db : EbooksDb) (t : String) (mid cid : Int)
    (fid : String) (ni nd : Nat) (h : check_book_exists db t ≠ none) :
    add_book db t mid cid fid ni nd = (false, db) := by
  cases hcb : check_book_exists db t with
  | none => exact absurd hcb h
  | some r => simp [add_book, hcb]

/-- C5 witness: adding a second book titled X to a store already holding an
X row returns false and leaves the store unchanged. -/
theorem add_book_duplicate_no_write_witness :
    check_book_exists c5db (String.mk ['X']) ≠ none ∧
    add_book c5db (String.mk ['X']) 9 100 (String.mk ['g']) 3 3 = (false, c5db) :=
  ⟨by decide,
   add_book_duplicate_no_write c5db (String.mk ['X']) 9 100 (String.mk ['g']) 3 3
     (by decide)⟩

/-- C4 counterexample: deactivating an advertisement that is already
inactive returns true, because the UPDATE has no active condition in its
WHERE clause and the change counter counts every matched row; the claim
requires false here. -/
theorem remove_advertisement_cex :
    c4inactiveAd.is_active = false ∧
    (remove_advertisement [c4inactiveAd] 1).1 = true := by decide

/-- C4 amended: remove_advertisement returns false exactly when no
advertisement with the given id exists; whenever the id is present it
returns true, even if that advertisement was already inactive, and after
the call every advertisement with the id is inactive. -/
theorem remove_advertisement_amended (ads : List Ad) (ad_id : Nat) :
    ((remove_advertisement ads ad_id).1 = false ↔ ∀ a ∈ ads, a.id ≠ ad_id) ∧
    ∀ a ∈ (remove_advertisement ads ad_id).2, a.id = ad_id → a.is_active = false := by
  constructor
  · show (decide (0 < ads.countP (fun a => a.id == ad_id)) = false) ↔ _
    rw [decide_eq_false_iff_not]
    constructor
    · intro hnone a ha hid
      have : 0 < ads.countP (fun a => a.id == ad_id) := by
        apply List.countP_pos_iff.mpr
        exact ⟨a, ha, by simp [hid]⟩
      exact hnone this
    · intro hall hpos
      rcases List.countP_pos_iff.mp hpos with ⟨a, ha, hp⟩
      exact hall a ha (by simpa using hp)
  · intro a ha hid
    rcases List.mem_map.mp ha with ⟨x, hx, hfx⟩
    by_cases hxid : (x.id == ad_id) = true
    · rw [if_pos hxid] at hfx
      rw [← hfx]
    · rw [if_neg hxid] at hfx
      exact absurd (hfx ▸ hid) (by simpa using hxid)

/-- C4 amended witness: the amended contract instantiated at a one-row list
holding an active advertisement with id 1. -/
theorem remove_advertisement_amended_witness :
    (((remove_advertisement c4activeAds 1).1 = false) ↔ ∀ a ∈ c4activeAds, a.id ≠ 1) ∧
    ∀ a ∈ (remove_advertisement c4activeAds 1).2, a.id = 1 → a.is_active = false :=
  remove_advertisement_amended c4activeAds 1

/-- C3: code-bug evidence.  With a store holding one row titled X whose
source message is gone from the chat, uploading a file that normalizes to
title X reports a duplicate and leaves the store unchanged: the stale row
is not reclaimed and nothing is inserted; add_book on title X likewise
returns false.  The staleness test check_message_exists reads the ebooks
table rather than the transport, so the reclaim branch never runs. -/
theorem handle_document_never_reclaims :
    handle_document c3db (String.mk ['X','.','p','d','f']) 9 200 (String.mk ['g']) 2 2 =
      (.duplicate (String.mk ['X'], 5, 100, String.mk ['f']), c3db) ∧
    add_book c3db (String.mk ['X']) 9 200 (String.mk ['g']) 2 2 = (false, c3db) :=
  ⟨by decide, by decide⟩

/-- C10 witness: the output invariant instantiated at a concrete file name
containing a special character, an uppercase letter, and an extension. -/
theorem clean_title_output_charset_witness :
    (∀ c ∈ (clean_title (String.mk ['a','!','B','.','p','d','f'])).data,
      isWordChar c = true ∨ c = '-' ∨ c = ' ') ∧
    '.' ∉ (clean_title (String.mk ['a','!','B','.','p','d','f'])).data ∧
    noDoubleSpace (clean_title (String.mk ['a','!','B','.','p','d','f'])).data = true ∧
    (∀ c, (clean_title (String.mk ['a','!','B','.','p','d','f'])).data.head? = some c →
      c.isWhitespace = false) ∧
    (∀ c, (clean_title (String.mk ['a','!','B','.','p','d','f'])).data.getLast? = some c →
      c.isWhitespace = false) :=
  clean_title_output_charset (String.mk ['a','!','B','.','p','d','f'])
